import Mathlib

/-!
# Verification of the ASKCOS MCTS tree builder core

A shallow embedding of `askcos/retrosynthetic/mcts/v2/tree_builder.py`.

Python floats are modelled as rationals (`ℚ`); `None` as `Option`; the
networkx `DiGraph` as explicit association lists of nodes and an edge list
(insertion-ordered, matching networkx iteration order).  The external
chemistry/pricing services (template prioritizer, retro transformer,
pricer) are modelled as an `Adapter` record of pure functions, and
`np.sqrt` as an explicit function argument `sqrtFn`.
-/

namespace Askcos

/-- Attributes of a chemical node, as set by `MCTS.create_chemical_node`.
`templates` is the insertion-ordered mapping from template index to
relevance probability.  `done` is the cached done state (the Python dict
gains the key on the first `is_chemical_done(update=True)` call, which
happens inside `create_chemical_node`; before that the field is never
read, so initializing it to `false` is faithful). -/
structure ChemData where
  explored : List Nat
  minDepth : Option Nat
  purchasePrice : Option ℚ
  rewardAvg : ℚ
  rewardTot : ℚ
  templates : List (Nat × ℚ)
  terminal : Bool
  done : Bool
  visitCount : Nat
deriving DecidableEq, Repr

/-- Attributes of a reaction node, as set by `MCTS._process_precursors`. -/
structure RxnData where
  fastFilterScore : ℚ
  rewardAvg : ℚ
  rewardTot : ℚ
  templateScore : ℚ
  templates : List Nat
  visitCount : Nat
deriving DecidableEq, Repr

/-- A node of the AND/OR graph is either a chemical or a reaction. -/
inductive NodeData where
  | chem (d : ChemData)
  | rxn (d : RxnData)
deriving DecidableEq, Repr

/-- The directed graph (`self.tree`): insertion-ordered node attribute
map and edge list. -/
structure Digraph where
  nodes : List (String × NodeData)
  edges : List (String × String)
deriving DecidableEq, Repr

/-- First-match association-list lookup (Python dict access on unique keys). -/
def lookupNode : List (String × NodeData) → String → Option NodeData
  | [], _ => none
  | (k, d) :: rest, key => if k = key then some d else lookupNode rest key

/-- `add_node` with a full attribute set: overwrites the attributes if the
node exists (networkx semantics), otherwise appends. -/
def addNode (t : Digraph) (k : String) (d : NodeData) : Digraph :=
  if (lookupNode t.nodes k).isSome then
    { t with nodes := t.nodes.map (fun p => if p.1 = k then (p.1, d) else p) }
  else
    { t with nodes := t.nodes ++ [(k, d)] }

/-- Update the attributes of node `k` in place. -/
def updNode (t : Digraph) (k : String) (f : NodeData → NodeData) : Digraph :=
  { t with nodes := t.nodes.map (fun p => if p.1 = k then (p.1, f p.2) else p) }

/-- Update a chemical node's attributes (no-op on reaction nodes). -/
def updChem (t : Digraph) (k : String) (f : ChemData → ChemData) : Digraph :=
  updNode t k (fun nd => match nd with
    | .chem d => .chem (f d)
    | x => x)

/-- Update a reaction node's attributes (no-op on chemical nodes). -/
def updRxn (t : Digraph) (k : String) (f : RxnData → RxnData) : Digraph :=
  updNode t k (fun nd => match nd with
    | .rxn d => .rxn (f d)
    | x => x)

/-- `add_edge`: idempotent edge insertion (networkx `DiGraph` keeps a
single copy of a repeated edge). Endpoint nodes always exist at every
call site in the source. -/
def addEdge (t : Digraph) (u v : String) : Digraph :=
  if (u, v) ∈ t.edges then t else { t with edges := t.edges ++ [(u, v)] }

/-- `tree.successors(k)` in insertion order. -/
def successors (t : Digraph) (k : String) : List String :=
  (t.edges.filter (fun e => e.1 = k)).map (fun e => e.2)

/-- `tree.out_degree(k)`. -/
def outDegree (t : Digraph) (k : String) : Nat :=
  (successors t k).length

/-- Chemical-node attribute read. -/
def getChem (t : Digraph) (k : String) : Option ChemData :=
  match lookupNode t.nodes k with
  | some (.chem d) => some d
  | _ => none

/-- Reaction-node attribute read. -/
def getRxn (t : Digraph) (k : String) : Option RxnData :=
  match lookupNode t.nodes k with
  | some (.rxn d) => some d
  | _ => none

/-- Fallback reaction data; in the source every reaction id reached in
`ucb` has a reaction node, so this default is never consulted there. -/
def defaultRxnData : RxnData :=
  { fastFilterScore := 0, rewardAvg := 0, rewardTot := 0,
    templateScore := 0, templates := [], visitCount := 0 }

/-- Reaction-node attribute read with default. -/
def getRxnD (t : Digraph) (k : String) : RxnData :=
  (getRxn t k).getD defaultRxnData

/-- The engine state: the graph plus the registries and the configuration
attributes set in `MCTS.__init__`. -/
structure MCTS where
  tree : Digraph
  target : String
  chemicals : List String
  reactions : List String
  templateMaxCount : Nat
  templateMaxCumProb : ℚ
  fastFilterThreshold : ℚ
  maxBranching : Nat
  maxDepth : Nat
  explorationWeight : ℚ
  maxPpg : Option ℚ
  maxChemicals : Option Nat
  maxReactions : Option Nat
deriving DecidableEq, Repr

/-- Fresh engine with the default configuration from `MCTS.__init__`
(`template_max_cum_prob = 0.995`, `fast_filter_threshold = 0.75`, ...). -/
def mkMCTS : MCTS :=
  { tree := ⟨[], []⟩, target := "", chemicals := [], reactions := [],
    templateMaxCount := 100, templateMaxCumProb := mkRat 199 200,
    fastFilterThreshold := mkRat 3 4, maxBranching := 10, maxDepth := 3,
    explorationWeight := 1, maxPpg := some 10,
    maxChemicals := none, maxReactions := none }

/-- The external collaborators: template prioritizer (`predict`), pricer
(`lookup_smiles`), template application (`_get_precursors` performs
canonicalization and rdchiral application through the retro transformer;
its outcome lists are what `precursors` receives) and the fast filter. -/
structure Adapter where
  predictTemplates : String → Nat → ℚ → List (Nat × ℚ)
  lookupPrice : String → Option ℚ
  applyTemplate : String → Nat → List (List String)
  fastFilter : String → String → ℚ

/-- `MCTS.is_terminal`: `is_buyable = ppg and (ppg <= self.max_ppg)`.
Python truthiness: `ppg` is falsy when it is `None` **or** `0`, so a
zero price is not buyable. -/
def is_terminal (s : MCTS) (ppg : Option ℚ) : Bool :=
  match s.maxPpg with
  | none => false
  | some mp =>
    match ppg with
    | none => false
    | some p => decide (p ≠ 0) && decide (p ≤ mp)

/-- `is_chemical_done(smiles)` with `update=False`: read the cached
`done` attribute. -/
def chemDoneAttr (t : Digraph) (k : String) : Bool :=
  match getChem t k with
  | some d => d.done
  | none => false

/-- `MCTS.is_reaction_done`: positive out-degree and all chemical
children cached-done. -/
def is_reaction_done (s : MCTS) (r : String) : Bool :=
  decide (outDegree s.tree r > 0) && (successors s.tree r).all (chemDoneAttr s.tree)

/-- The recomputation performed by `is_chemical_done(smiles, update=True)`:
terminal, or no templates, or min depth reached, or (branching cap hit or
all templates explored) and every child reaction done. -/
def computeChemDone (s : MCTS) (k : String) : Bool :=
  match getChem s.tree k with
  | none => false
  | some d =>
    if d.terminal then true
    else if d.templates.length = 0 then true
    else if (match d.minDepth with
             | some md => decide (md ≥ s.maxDepth)
             | none => false) then true
    else if outDegree s.tree k ≥ s.maxBranching ∨ d.explored.length = d.templates.length then
      (successors s.tree k).all (is_reaction_done s)
    else false

/-- Write the cached `done` attribute of chemical `k`. -/
def setChemDone (s : MCTS) (k : String) (v : Bool) : MCTS :=
  { s with tree := updChem s.tree k (fun d => { d with done := v }) }

/-- `is_chemical_done(smiles, update=True)`: recompute, cache, and return. -/
def is_chemical_done_update (s : MCTS) (k : String) : Bool × MCTS :=
  let v := computeChemDone s k
  (v, setChemDone s k v)

/-- `MCTS.create_chemical_node`: templates from the prioritizer, price
lookup, terminal from the price policy, fresh attributes, then an
immediate cached done update. -/
def create_chemical_node (A : Adapter) (s : MCTS) (smiles : String) : MCTS :=
  let templates := A.predictTemplates smiles s.templateMaxCount s.templateMaxCumProb
  let price := A.lookupPrice smiles
  let terminal := is_terminal s price
  let s1 : MCTS :=
    { s with
      chemicals := s.chemicals ++ [smiles],
      tree := addNode s.tree smiles (.chem
        { explored := [], minDepth := none, purchasePrice := price,
          rewardAvg := 0, rewardTot := 0, templates := templates,
          terminal := terminal, done := false, visitCount := 0 }) }
  (is_chemical_done_update s1 smiles).2

/-- `MCTS._initialize`: create the root node and then force
`terminal = False`, `done = False` and bump `visit_count`. -/
def initTarget (A : Adapter) (s : MCTS) (target : String) : MCTS :=
  let s1 := create_chemical_node A { s with target := target } target
  let s2 : MCTS := { s1 with tree := updChem s1.tree target (fun d => { d with terminal := false }) }
  let s3 : MCTS := { s2 with tree := updChem s2.tree target (fun d => { d with done := false }) }
  { s3 with tree := updChem s3.tree target (fun d => { d with visitCount := d.visitCount + 1 }) }

/-- The `MCTS.done` property guarding the expansion loop in `build_tree`. -/
def mctsDone (s : MCTS) : Bool :=
  chemDoneAttr s.tree s.target
  || (match s.maxChemicals with
      | some m => decide (s.chemicals.length ≥ m)
      | none => false)
  || (match s.maxReactions with
      | some m => decide (s.reactions.length ≥ m)
      | none => false)

/-- `templates(c)[t]` (`self.tree.nodes[node]['templates'][t]`); a missing
key would raise a `KeyError` in Python and is given the default `0` here
(at every call site the key is present in well-formed states). -/
def templateProb (d : ChemData) (t : Nat) : ℚ :=
  (d.templates.lookup t).getD 0

/-- Descending stable insertion (used to model Python's stable
`sort(key=score, reverse=True)`): the new element goes after every
element with an equal or larger key. -/
def insertDesc (key : α → ℚ) (acc : List α) (x : α) : List α :=
  match acc with
  | [] => [x]
  | y :: ys => if key y < key x then x :: y :: ys else y :: insertDesc key ys x

/-- Stable descending sort by key, processing elements in their original
order (matches CPython's stable `list.sort(reverse=True)`). -/
def sortDesc (key : α → ℚ) (l : List α) : List α :=
  l.foldl (insertDesc key) []

/-- The reaction children of `node` that `ucb` does not skip: not
reaction-done, and no successor already on the selection path. -/
def eligibleRxns (s : MCTS) (node : String) (path : List String) : List String :=
  (successors s.tree node).filter (fun r =>
    !(is_reaction_done s r) && !((successors s.tree r).any (fun c => path.contains c)))

/-- The `max_average_reward` accumulated by the reaction loop of `ucb`:
it starts at `0` and is only updated for reaction children that are not
skipped, so it is the maximum of `0` and the eligible children's
`reward_avg`. -/
def ucbMaxReward (s : MCTS) (node : String) (path : List String) : ℚ :=
  ((eligibleRxns s node path).map (fun r => (getRxnD s.tree r).rewardAvg)).foldl max 0

/-- `MCTS.ucb`: scores for descending into an existing reaction child and
for applying a new template, each sorted descending.  `sqrtFn` embeds
`np.sqrt` applied to the visit count. -/
def ucb (s : MCTS) (sqrtFn : Nat → ℚ) (node : String) (path : List String)
    (w : ℚ) : List (ℚ × String) × List (ℚ × Nat) :=
  match getChem s.tree node with
  | none => ([], [])
  | some d =>
    let reactionOptions := (eligibleRxns s node path).map (fun r =>
      let rd := getRxnD s.tree r
      let p := (rd.templates.map (templateProb d)).sum
      (-rd.rewardAvg + w * (p * (d.visitCount : ℚ) / (1 + (rd.visitCount : ℚ))), r))
    let m := ucbMaxReward s node path
    let templateOptions := (d.templates.filter (fun tp => !d.explored.contains tp.1)).map
      (fun tp => (-(m + 1/10) + w * (tp.2 * (1 + sqrtFn d.visitCount)), tp.1))
    (sortDesc Prod.fst reactionOptions, sortDesc Prod.fst templateOptions)

/-- A selection option is either an existing reaction to descend into or
a new template index (the `isinstance(task, str)` test in `_select`). -/
inductive Task where
  | rxn (r : String)
  | tmpl (t : Nat)
deriving DecidableEq, Repr

/-- Visit count of a chemical node (`self.tree.nodes[x]['visit_count']`). -/
def visitCountOf (s : MCTS) (c : String) : Nat :=
  ((getChem s.tree c).map (fun d => d.visitCount)).getD 0

/-- Python `min(..., key=visit_count)` over chemical nodes: the first
element attaining the minimum; `none` on an empty list (where Python
raises `ValueError`). -/
def minByVisit (s : MCTS) : List String → Option String
  | [] => none
  | c :: cs => some (cs.foldl (fun best x =>
      if visitCountOf s x < visitCountOf s best then x else best) c)

/-- The `while template is None` loop of `MCTS._select`, with explicit
fuel.  `none` models the failure states (fuel exhausted, the `pdb` hook
on empty options, or Python's `ValueError` from `min` on an empty
candidate list). -/
def selectLoop (s : MCTS) (sqrtFn : Nat → ℚ) :
    Nat → List String → List String → Option (List String × List String × Nat)
  | 0, _, _ => none
  | fuel + 1, chemPath, rxnPath =>
    let leaf := chemPath.getLastD ""
    let opts := ucb s sqrtFn leaf chemPath s.explorationWeight
    let options : List (ℚ × Task) :=
      (opts.1.map (fun p => (p.1, Task.rxn p.2))) ++
      (if outDegree s.tree leaf < s.maxBranching then
        opts.2.map (fun p => (p.1, Task.tmpl p.2))
      else [])
    match sortDesc Prod.fst options with
    | [] => none
    | best :: _ =>
      match best.2 with
      | .rxn r =>
        let cands := (successors s.tree r).filter (fun c => !(chemDoneAttr s.tree c))
        match minByVisit s cands with
        | none => none
        | some precursor =>
          selectLoop s sqrtFn fuel (chemPath ++ [precursor]) (rxnPath ++ [r])
      | .tmpl t => some (chemPath, rxnPath, t)

/-- `MCTS._select`, starting from the root with `chem_path = [target]`. -/
def select (s : MCTS) (sqrtFn : Nat → ℚ) (fuel : Nat) :
    Option (List String × List String × Nat) :=
  selectLoop s sqrtFn fuel [s.target] []

/-- The `for reactant in reactant_list` loop of `_process_precursors`:
returns the updated state and whether the loop was left by `break`
(cycle detected), which skips the `for ... else` clause. -/
def processReactants (A : Adapter) (s : MCTS) (path : List String) :
    List String → MCTS × Bool
  | [] => (s, false)
  | a :: rest =>
    if a ∈ path then (s, true)
    else
      let s' := if a ∈ s.chemicals then s else create_chemical_node A s a
      processReactants A s' path rest

/-- `MCTS._process_precursors`: filter each outcome by the fast filter,
create chemical nodes for new reactants, discard the outcome on a cycle,
then merge or create the reaction node and add its edges. -/
def process_precursors (A : Adapter) (s : MCTS) (target : String)
    (template : Nat) (precursors : List (List String)) (path : List String) : MCTS :=
  precursors.foldl (fun s reactantList =>
    let reactantSmiles := String.intercalate "." reactantList
    let score := A.fastFilter reactantSmiles target
    if score < s.fastFilterThreshold then s
    else
      let step := processReactants A s path reactantList
      if step.2 then step.1
      else
        let s1 := step.1
        let reactionSmiles := reactantSmiles ++ ">>" ++ target
        let templateScore :=
          match getChem s1.tree target with
          | some d => templateProb d template
          | none => 0
        let s2 : MCTS :=
          if reactionSmiles ∈ s1.reactions then
            { s1 with tree := updRxn s1.tree reactionSmiles (fun rd =>
                { rd with templates := rd.templates ++ [template],
                          templateScore := max rd.templateScore templateScore }) }
          else
            { s1 with
              reactions := s1.reactions ++ [reactionSmiles],
              tree := addNode s1.tree reactionSmiles (.rxn
                { fastFilterScore := score, rewardAvg := 0, rewardTot := 0,
                  templateScore := templateScore, templates := [template],
                  visitCount := 0 }) }
        let s3 : MCTS := { s2 with tree := addEdge s2.tree target reactionSmiles }
        reactantList.foldl (fun t a => { t with tree := addEdge t.tree reactionSmiles a }) s3)
    s

/-- `MCTS._expand`: append the template to the leaf's explored list (if
new), obtain the outcomes from the adapter and process them. -/
def expand (A : Adapter) (s : MCTS) (chemPath : List String) (template : Nat) : MCTS :=
  let leaf := chemPath.getLastD ""
  match getChem s.tree leaf with
  | none => s
  | some d =>
    if template ∈ d.explored then s
    else
      let s1 : MCTS :=
        { s with tree := updChem s.tree leaf (fun d =>
            { d with explored := d.explored ++ [template] }) }
      let precursors := A.applyTemplate leaf template
      process_precursors A s1 leaf template precursors chemPath

/-- `MCTS._update`: walk the path in reverse (via `zip_longest`, so the
root is paired with no reaction), bump visit counts, lower `min_depth`,
and recompute the cached chemical done state. -/
def updateMCTS (s : MCTS) (chemPath rxnPath : List String) : MCTS :=
  let idxs := (List.range chemPath.length).reverse
  let rxns := rxnPath.reverse.map some ++
    List.replicate (chemPath.length - rxnPath.length) (none : Option String)
  (idxs.zip (chemPath.reverse.zip rxns)).foldl (fun s item =>
    let i := item.1
    let chem := item.2.1
    let s1 : MCTS := { s with tree := updChem s.tree chem (fun d =>
        { d with visitCount := d.visitCount + 1,
                 minDepth := some (match d.minDepth with
                   | some md => min md i
                   | none => i) }) }
    let s2 := (is_chemical_done_update s1 chem).2
    match item.2.2 with
    | some rxn =>
      { s2 with tree := updRxn s2.tree rxn (fun rd =>
          { rd with visitCount := rd.visitCount + 1 }) }
    | none => s2) s

/-- `MCTS._rollout`: one iteration of select → expand → update.  `none`
models the selection failure states (see `selectLoop`). -/
def rollout (A : Adapter) (sqrtFn : Nat → ℚ) (fuel : Nat) (s : MCTS) : Option MCTS :=
  match select s sqrtFn fuel with
  | none => none
  | some sel =>
    some (updateMCTS (expand A s sel.1 sel.2.2) sel.1 sel.2.1)

/-- Reachability along the directed edges of the graph, used to state
invariant I1 ("every node is reachable from r"). -/
inductive Reach (t : Digraph) (root : String) : String → Prop
  | refl : Reach t root root
  | step {u v : String} : Reach t root u → (u, v) ∈ t.edges → Reach t root v

/-- A node of the branching produced by `nx.dag_to_branching` in
`MCTS.to_branching`: the branching is a directed forest in which every
node carries a `source` id and the attributes copied from the original
graph node, so it is represented as a rose tree. -/
inductive BTree where
  | node (id : String) (data : NodeData) (children : List BTree)
deriving Repr

/-- `itertools.product` over a list of lists, in Python's order (the
first factor varies slowest). -/
def listProd : List (List α) → List (List α)
  | [] => [[]]
  | l :: ls => (l.map (fun x => (listProd ls).map (fun combo => x :: combo))).flatten

mutual
/-- `get_chem_paths` in `get_paths`: a chemical with no children, or one
at depth `≥ max_depth`, becomes a leaf; otherwise each reaction child
contributes its reaction paths, re-rooted under this chemical. -/
def getChemPaths (maxDepth : Nat) : BTree → Nat → List BTree
  | .node i dat children, d =>
    if children.isEmpty || decide (d ≥ maxDepth) then [BTree.node i dat []]
    else (children.attach.map (fun c =>
      (getRxnPaths maxDepth c.1 (d + 1)).map (fun sub => BTree.node i dat [sub]))).flatten
termination_by t _ => sizeOf t
decreasing_by simp_wf; have h := List.sizeOf_lt_of_mem c.2; omega

/-- `get_rxn_paths` in `get_paths`: the cartesian product of the chemical
paths of every child (AND semantics), each combination united under the
reaction node. -/
def getRxnPaths (maxDepth : Nat) : BTree → Nat → List BTree
  | .node i dat children, d =>
    (listProd (children.attach.map (fun c => getChemPaths maxDepth c.1 d))).map
      (fun combo => BTree.node i dat combo)
termination_by t _ => sizeOf t
decreasing_by simp_wf; have h := List.sizeOf_lt_of_mem c.2; omega
end

/-- The read `_path.nodes[v]['terminal']` performed by `_validate_path`
on a leaf: a reaction node has no `terminal` attribute (Python would
raise `KeyError`); the `false` default is only consulted for reaction
leaves, which do not occur in paths of a branching whose reaction nodes
all have children. -/
def terminalRead : NodeData → Bool
  | .chem d => d.terminal
  | .rxn _ => false

/-- `_validate_path` in `get_buyable_paths`: every leaf (out-degree-0
node) of the path has a true `terminal` attribute. -/
def validatePath : BTree → Bool
  | .node _ dat [] => terminalRead dat
  | .node _ _ (c :: cs) => ((c :: cs).attach).all (fun x => validatePath x.1)
termination_by t => sizeOf t
decreasing_by simp_wf; have h := List.sizeOf_lt_of_mem x.2; simp only [List.cons.sizeOf_spec] at h; omega

/-- `get_buyable_paths` up to serialization: enumerate the paths from
the branching root and keep the validated ones. -/
def getBuyablePathsList (maxDepth : Nat) (t : BTree) : List BTree :=
  (getChemPaths maxDepth t 0).filter validatePath

/-- The format dispatch of `get_buyable_paths`: `json` and `graph`
return the path list (serialization itself is not modelled); any other
format raises `ValueError('Unrecognized format type ...')`. -/
def get_buyable_paths (maxDepth : Nat) (t : BTree) (fmt : String) :
    Except String (List BTree) :=
  let paths := getBuyablePathsList maxDepth t
  if fmt = "json" then .ok paths
  else if fmt = "graph" then .ok paths
  else .error ("Unrecognized format type " ++ fmt)

/-- The depth contribution of a node kind: descending through a reaction
node adds one chemical level. -/
def depthBump : NodeData → Nat
  | .chem _ => 0
  | .rxn _ => 1

/-- Chemical depth of a path tree: reaction edges count one level, so a
lone chemical has depth 0 and `X ← (rxn) ← A` has depth 1. -/
def chemDepth : BTree → Nat
  | .node _ dat cs =>
    (cs.attach.map (fun c => chemDepth c.1)).foldl max 0 + depthBump dat
termination_by t => sizeOf t
decreasing_by simp_wf; have h := List.sizeOf_lt_of_mem c.2; omega

/-- Whether a node's kind agrees with the expected kind flag
(`true` = chemical expected, `false` = reaction expected). -/
def kindMatches : Bool → NodeData → Bool
  | true, .chem _ => true
  | false, .rxn _ => true
  | true, .rxn _ => false
  | false, .chem _ => false

/-- Bipartite alternation (invariant I2) for a branching tree: when the
flag is `true` the root must be a chemical, and kinds alternate below. -/
def altTree : Bool → BTree → Bool
  | expectChem, .node _ dat cs =>
    kindMatches expectChem dat && cs.attach.all (fun c => altTree (!expectChem) c.1)
termination_by _ t => sizeOf t
decreasing_by simp_wf; have h := List.sizeOf_lt_of_mem c.2; omega

/-- A reaction node must have at least one child; chemicals are free. -/
def rxnNodeOk : NodeData → List BTree → Bool
  | .rxn _, cs => !cs.isEmpty
  | .chem _, _ => true

/-- Every reaction node of the branching has at least one child (in the
engine's graph every reaction node receives an edge to each of its
reactants at creation). -/
def rxnNonempty : BTree → Bool
  | .node _ dat cs =>
    rxnNodeOk dat cs && cs.attach.all (fun c => rxnNonempty c.1)
termination_by t => sizeOf t
decreasing_by simp_wf; have h := List.sizeOf_lt_of_mem c.2; omega

/-- Whether the node data is of chemical kind. -/
def isChemNode : NodeData → Bool
  | .chem _ => true
  | .rxn _ => false

/-- Every leaf of the tree is a chemical node. -/
def leavesAreChem : BTree → Bool
  | .node _ dat [] => isChemNode dat
  | .node _ _ (c :: cs) => ((c :: cs).attach).all (fun x => leavesAreChem x.1)
termination_by t => sizeOf t
decreasing_by simp_wf; have h := List.sizeOf_lt_of_mem x.2; simp only [List.cons.sizeOf_spec] at h; omega

/-! ## Basic lemmas about the graph store -/

theorem lookupNode_nil (key : String) : lookupNode [] key = none := rfl

theorem lookupNode_cons (a : String) (b : NodeData) (l : List (String × NodeData))
    (key : String) :
    lookupNode ((a, b) :: l) key = if a = key then some b else lookupNode l key := rfl

theorem lookupNode_append_some {key : String} {d : NodeData}
    (l2 : List (String × NodeData)) :
    ∀ l1, lookupNode l1 key = some d → lookupNode (l1 ++ l2) key = some d
  | [], h => by simp [lookupNode_nil] at h
  | (a, b) :: tl, h => by
    rw [lookupNode_cons] at h
    rw [List.cons_append, lookupNode_cons]
    by_cases hk : a = key
    · rw [if_pos hk] at h ⊢; exact h
    · rw [if_neg hk] at h ⊢
      exact lookupNode_append_some l2 tl h

theorem lookupNode_append_none {key : String} (l2 : List (String × NodeData)) :
    ∀ l1, lookupNode l1 key = none → lookupNode (l1 ++ l2) key = lookupNode l2 key
  | [], _ => rfl
  | (a, b) :: tl, h => by
    rw [lookupNode_cons] at h
    rw [List.cons_append, lookupNode_cons]
    by_cases hk : a = key
    · rw [if_pos hk] at h; exact absurd h (by simp)
    · rw [if_neg hk] at h ⊢
      exact lookupNode_append_none l2 tl h

theorem lookupNode_map_if (k key : String) (f : NodeData → NodeData) :
    ∀ l, lookupNode (l.map (fun p => if p.1 = k then (p.1, f p.2) else p)) key =
      if key = k then (lookupNode l key).map f else lookupNode l key
  | [] => by by_cases h : key = k <;> simp [lookupNode_nil, h]
  | (a, b) :: tl => by
    have ih := lookupNode_map_if k key f tl
    simp only [List.map_cons]
    by_cases hak : a = k <;> by_cases hakey : a = key
    · subst hak; subst hakey
      simp [lookupNode_cons]
    · subst hak
      have hkk : ¬ key = a := fun h => hakey h.symm
      simp [lookupNode_cons, hakey, hkk, ih]
    · subst hakey
      simp [lookupNode_cons, hak]
    · simp [lookupNode_cons, hak, hakey, ih]

theorem lookupNode_map_const (k key : String) (d : NodeData) :
    ∀ l, lookupNode (l.map (fun p => if p.1 = k then (p.1, d) else p)) key =
      if key = k then (lookupNode l key).map (fun _ => d) else lookupNode l key
  | [] => by by_cases h : key = k <;> simp [lookupNode_nil, h]
  | (a, b) :: tl => by
    have ih := lookupNode_map_const k key d tl
    simp only [List.map_cons]
    by_cases hak : a = k <;> by_cases hakey : a = key
    · subst hak; subst hakey
      simp [lookupNode_cons]
    · subst hak
      have hkk : ¬ key = a := fun h => hakey h.symm
      simp [lookupNode_cons, hakey, hkk, ih]
    · subst hakey
      simp [lookupNode_cons, hak]
    · simp [lookupNode_cons, hak, hakey, ih]

theorem edges_updNode (t : Digraph) (k : String) (f : NodeData → NodeData) :
    (updNode t k f).edges = t.edges := rfl

theorem edges_addNode (t : Digraph) (k : String) (d : NodeData) :
    (addNode t k d).edges = t.edges := by
  unfold addNode; split <;> rfl

theorem nodes_addEdge (t : Digraph) (u v : String) :
    (addEdge t u v).nodes = t.nodes := by
  unfold addEdge; split <;> rfl

theorem successors_updNode (t : Digraph) (k : String) (f : NodeData → NodeData)
    (x : String) : successors (updNode t k f) x = successors t x := rfl

theorem lookupNode_updNode (t : Digraph) (k key : String) (f : NodeData → NodeData) :
    lookupNode (updNode t k f).nodes key =
      if key = k then (lookupNode t.nodes key).map f else lookupNode t.nodes key :=
  lookupNode_map_if k key f t.nodes

theorem lookupNode_addNode_self (t : Digraph) (k : String) (d : NodeData) :
    lookupNode (addNode t k d).nodes k = some d := by
  unfold addNode
  split
  · next h =>
    obtain ⟨d0, hd0⟩ := Option.isSome_iff_exists.mp h
    have hm := lookupNode_map_const k k d t.nodes
    rw [if_pos rfl, hd0] at hm
    exact hm
  · next h =>
    rw [show ({ t with nodes := t.nodes ++ [(k, d)] } : Digraph).nodes
          = t.nodes ++ [(k, d)] from rfl,
        lookupNode_append_none _ _ (Option.not_isSome_iff_eq_none.mp h),
        lookupNode_cons, if_pos rfl]

theorem getChem_updChem_self (t : Digraph) (k : String) (f : ChemData → ChemData) :
    getChem (updChem t k f) k = (getChem t k).map f := by
  unfold getChem updChem
  rw [lookupNode_updNode]
  simp only [if_true]
  cases h : lookupNode t.nodes k with
  | none => rfl
  | some nd => cases nd <;> rfl

theorem getChem_updChem_ne (t : Digraph) (k key : String) (f : ChemData → ChemData)
    (h : key ≠ k) : getChem (updChem t k f) key = getChem t key := by
  unfold getChem updChem
  rw [lookupNode_updNode]
  simp [h]

theorem getChem_updRxn (t : Digraph) (k key : String) (f : RxnData → RxnData) :
    getChem (updRxn t k f) key = getChem t key := by
  unfold getChem updRxn
  rw [lookupNode_updNode]
  by_cases h : key = k
  · subst h
    simp only [if_true]
    cases hl : lookupNode t.nodes key with
    | none => rfl
    | some nd => cases nd <;> rfl
  · simp [h]

theorem getRxn_updChem (t : Digraph) (k key : String) (f : ChemData → ChemData) :
    getRxn (updChem t k f) key = getRxn t key := by
  unfold getRxn updChem
  rw [lookupNode_updNode]
  by_cases h : key = k
  · subst h
    simp only [if_true]
    cases hl : lookupNode t.nodes key with
    | none => rfl
    | some nd => cases nd <;> rfl
  · simp [h]

theorem getRxn_updRxn_self (t : Digraph) (k : String) (f : RxnData → RxnData) :
    getRxn (updRxn t k f) k = (getRxn t k).map f := by
  unfold getRxn updRxn
  rw [lookupNode_updNode]
  simp only [if_true]
  cases h : lookupNode t.nodes k with
  | none => rfl
  | some nd => cases nd <;> rfl

theorem getChem_addNode_self (t : Digraph) (k : String) (d : ChemData) :
    getChem (addNode t k (.chem d)) k = some d := by
  unfold getChem
  rw [lookupNode_addNode_self]

theorem successors_eq_of_edges {t1 t2 : Digraph} (h : t1.edges = t2.edges)
    (x : String) : successors t1 x = successors t2 x := by
  unfold successors; rw [h]

theorem create_chemical_node_reactions (A : Adapter) (s : MCTS) (z : String) :
    (create_chemical_node A s z).reactions = s.reactions := rfl

theorem create_chemical_node_edges (A : Adapter) (s : MCTS) (z : String) :
    (create_chemical_node A s z).tree.edges = s.tree.edges := by
  show (updChem (addNode s.tree z _) z _).edges = s.tree.edges
  rw [show (updChem (addNode s.tree z _) z _).edges
        = (addNode s.tree z _).edges from rfl, edges_addNode]

theorem initTarget_getChem (A : Adapter) (s : MCTS) (target : String) :
    getChem (initTarget A s target).tree target =
      (getChem (create_chemical_node A { s with target := target } target).tree target).map
        (fun d => { d with terminal := false, done := false, visitCount := d.visitCount + 1 }) := by
  show getChem (updChem (updChem (updChem _ _ _) _ _) _ _) target = _
  rw [getChem_updChem_self, getChem_updChem_self, getChem_updChem_self]
  cases getChem (create_chemical_node A { s with target := target } target).tree target <;> rfl

theorem create_chemical_node_getChem (A : Adapter) (s : MCTS) (z : String) :
    getChem (create_chemical_node A s z).tree z =
      some { explored := [], minDepth := none,
             purchasePrice := A.lookupPrice z,
             rewardAvg := 0, rewardTot := 0,
             templates := A.predictTemplates z s.templateMaxCount s.templateMaxCumProb,
             terminal := is_terminal s (A.lookupPrice z),
             done := computeChemDone
               { s with
                 chemicals := s.chemicals ++ [z],
                 tree := addNode s.tree z (.chem
                   { explored := [], minDepth := none,
                     purchasePrice := A.lookupPrice z,
                     rewardAvg := 0, rewardTot := 0,
                     templates := A.predictTemplates z s.templateMaxCount s.templateMaxCumProb,
                     terminal := is_terminal s (A.lookupPrice z),
                     done := false, visitCount := 0 }) } z,
             visitCount := 0 } := by
  show getChem (updChem (addNode s.tree z _) z _) z = _
  rw [getChem_updChem_self, getChem_addNode_self]
  rfl

/-! ## Concrete adapters for the claim instances -/

/-- `np.sqrt` on the (natural) visit counts used in the concrete runs
below, where the counts are perfect squares so the value is exact. -/
def rsqrt : Nat → ℚ := fun n => (Nat.sqrt n : ℚ)

/-- A target priced at 1 (buyable under the default `max_ppg = 10`). -/
def adapterC1 : Adapter :=
  { predictTemplates := fun _ _ _ => [(1, 9/10)],
    lookupPrice := fun _ => some 1,
    applyTemplate := fun _ _ => [],
    fastFilter := fun _ _ => 0 }

/-- A chemical priced at exactly 0. -/
def adapterC3 : Adapter :=
  { predictTemplates := fun _ _ _ => [(1, 9/10)],
    lookupPrice := fun _ => some 0,
    applyTemplate := fun _ _ => [],
    fastFilter := fun _ _ => 0 }

/-- A target with no templates at all. -/
def adapterC4 : Adapter :=
  { predictTemplates := fun _ _ _ => [],
    lookupPrice := fun _ => none,
    applyTemplate := fun _ _ => [],
    fastFilter := fun _ _ => 0 }

/-! ## Claim C7 -/

/-- C7: `get_buyable_paths(fmt)` returns candidate trees when `fmt` is
`json` or `graph`, and for every other value of `fmt` it fails with an
error rather than returning a result. -/
theorem get_buyable_paths_format (maxDepth : Nat) (t : BTree) (fmt : String) :
    (get_buyable_paths maxDepth t fmt).isOk = (fmt == "json" || fmt == "graph") := by
  unfold get_buyable_paths
  by_cases h1 : fmt = "json"
  · simp [h1, Except.isOk, Except.toBool]
  · by_cases h2 : fmt = "graph" <;> simp [h1, h2, Except.isOk, Except.toBool]

/-! ## Claim C1 -/

/-- C1 counterexample: the target `T` has looked-up price 1, which is
non-null and ≤ `max_ppg = 10`, yet after `_initialize` the root has
`terminal = false` and `done = false` (the claimed `terminal`/`done`
state is false), and the driver's `done` property is false, so
`build_tree` does not stop before attempting a rollout. -/
theorem initTarget_buyable_target_not_terminal :
    adapterC1.lookupPrice "T" = some 1 ∧ ((1 : ℚ) ≤ 10) ∧ mkMCTS.maxPpg = some 10 ∧
    (getChem (initTarget adapterC1 mkMCTS "T").tree "T").map
      (fun d => (d.terminal, d.done)) = some (false, false) ∧
    mctsDone (initTarget adapterC1 mkMCTS "T") = false := by
  refine ⟨rfl, by norm_num, rfl, by decide, by decide⟩

theorem mctsDone_initTarget_false (A : Adapter) (s : MCTS) (target : String)
    (hc : s.maxChemicals = none) (hr : s.maxReactions = none) :
    mctsDone (initTarget A s target) = false := by
  unfold mctsDone
  have htg : (initTarget A s target).target = target := rfl
  have hcc : (initTarget A s target).maxChemicals = none := hc
  have hrr : (initTarget A s target).maxReactions = none := hr
  rw [htg, hcc, hrr]
  have hattr : chemDoneAttr (initTarget A s target).tree target = false := by
    unfold chemDoneAttr
    rw [initTarget_getChem, create_chemical_node_getChem]
    rfl
  rw [hattr]
  rfl

/-- C1 amended: whatever the looked-up price, `_initialize` explicitly
overrides the root's attributes to `terminal = false`, `done = false`
and `visit_count = 1`; with the chemical/reaction caps unset the
driver's `done` property is false afterwards, so `build_tree` enters the
rollout loop instead of performing zero rollouts. -/
theorem initTarget_root_attrs (A : Adapter) (s : MCTS) (target : String)
    (hc : s.maxChemicals = none) (hr : s.maxReactions = none) :
    ∃ d, getChem (initTarget A s target).tree target = some d ∧
      d.terminal = false ∧ d.done = false ∧ d.visitCount = 1 ∧
      mctsDone (initTarget A s target) = false := by
  rw [initTarget_getChem, create_chemical_node_getChem]
  exact ⟨_, rfl, rfl, rfl, rfl, mctsDone_initTarget_false A s target hc hr⟩

/-- Witness for the amended C1 theorem at the concrete adapter. -/
theorem initTarget_root_attrs_witness :
    mkMCTS.maxChemicals = none ∧ mkMCTS.maxReactions = none ∧
    (∃ d, getChem (initTarget adapterC1 mkMCTS "T").tree "T" = some d ∧
      d.terminal = false ∧ d.done = false ∧ d.visitCount = 1 ∧
      mctsDone (initTarget adapterC1 mkMCTS "T") = false) :=
  ⟨rfl, rfl, initTarget_root_attrs adapterC1 mkMCTS "T" rfl rfl⟩

/-! ## Claim C3 -/

/-- C3 counterexample: the chemical `Z` has the non-null price 0 with
`0 ≤ max_ppg = 10`, yet `create_chemical_node` marks it
`terminal = false`, because Python's `ppg and (ppg <= self.max_ppg)`
is falsy for `ppg = 0`. -/
theorem create_chemical_node_zero_price_not_terminal :
    adapterC3.lookupPrice "Z" = some 0 ∧ ((0 : ℚ) ≤ 10) ∧ mkMCTS.maxPpg = some 10 ∧
    (getChem (create_chemical_node adapterC3 mkMCTS "Z").tree "Z").map
      (fun d => d.terminal) = some false := by
  refine ⟨rfl, by norm_num, rfl, by decide⟩

/-- C3 amended: for a chemical node created by `create_chemical_node`
(with a non-null price cap), `terminal = true` iff the looked-up price is
non-null, **nonzero**, and ≤ `max_ppg`. -/
theorem create_chemical_node_terminal_iff (A : Adapter) (s : MCTS) (z : String)
    (mp : ℚ) (hmp : s.maxPpg = some mp) :
    ∃ d, getChem (create_chemical_node A s z).tree z = some d ∧
      (d.terminal = true ↔ ∃ p, A.lookupPrice z = some p ∧ p ≠ 0 ∧ p ≤ mp) := by
  rw [create_chemical_node_getChem]
  refine ⟨_, rfl, ?_⟩
  show is_terminal s (A.lookupPrice z) = true ↔ _
  unfold is_terminal
  rw [hmp]
  cases hp : A.lookupPrice z with
  | none => simp
  | some p =>
    simp only [Bool.and_eq_true, decide_eq_true_eq]
    constructor
    · rintro ⟨h1, h2⟩
      exact ⟨p, rfl, h1, h2⟩
    · rintro ⟨q, hq, h1, h2⟩
      cases hq
      exact ⟨h1, h2⟩

/-- Witness for the amended C3 theorem: price 0 on the left of the iff. -/
theorem create_chemical_node_terminal_iff_witness :
    mkMCTS.maxPpg = some 10 ∧
    (∃ d, getChem (create_chemical_node adapterC3 mkMCTS "Z").tree "Z" = some d ∧
      (d.terminal = true ↔ ∃ p, adapterC3.lookupPrice "Z" = some p ∧ p ≠ 0 ∧ p ≤ 10)) :=
  ⟨rfl, create_chemical_node_terminal_iff adapterC3 mkMCTS "Z" 10 rfl⟩

/-! ## Claim C4 -/

theorem computeChemDone_of_empty_templates {s : MCTS} {z : String} {d : ChemData}
    (hd : getChem s.tree z = some d) (ht : d.templates = []) :
    computeChemDone s z = true := by
  unfold computeChemDone
  rw [hd]
  simp [ht]

theorem initTarget_edges (A : Adapter) (s : MCTS) (target : String) :
    (initTarget A s target).tree.edges = s.tree.edges :=
  create_chemical_node_edges A { s with target := target } target

/-- C4 counterexample: the target `E` has an empty templates mapping, yet
after `build_tree`'s initialization its `done` attribute is false (the
`done = True` cached by `create_chemical_node` is overridden by
`_initialize`), and the driver's `done` property is false, so a rollout
is attempted. -/
theorem initTarget_empty_templates_not_done :
    adapterC4.predictTemplates "E" 100 (mkRat 199 200) = [] ∧
    (getChem (initTarget adapterC4 mkMCTS "E").tree "E").map
      (fun d => (d.templates, d.done)) = some ([], false) ∧
    mctsDone (initTarget adapterC4 mkMCTS "E") = false := by
  refine ⟨rfl, by decide, by decide⟩

/-- C4 amended: with an empty templates mapping, `create_chemical_node`
does cache `done = true` on the target, but `_initialize` then resets
`done` to false; with the caps unset the driver's `done` property is
false, so `build_tree` enters the rollout loop, where UCB offers no
options at all for the root (both option lists are empty — the code's
impossible-state debugger hook). -/
theorem initTarget_empty_templates (A : Adapter) (s : MCTS) (target : String)
    (w : ℚ) (sqrtFn : Nat → ℚ)
    (ht : A.predictTemplates target s.templateMaxCount s.templateMaxCumProb = [])
    (hc : s.maxChemicals = none) (hr : s.maxReactions = none)
    (he : s.tree.edges = []) :
    (getChem (create_chemical_node A { s with target := target } target).tree target).map
      (fun d => d.done) = some true ∧
    (getChem (initTarget A s target).tree target).map
      (fun d => (d.templates, d.done)) = some ([], false) ∧
    mctsDone (initTarget A s target) = false ∧
    ucb (initTarget A s target) sqrtFn target [target] w = ([], []) := by
  have hcreate := create_chemical_node_getChem A { s with target := target } target
  have hinit := initTarget_getChem A s target
  rw [hcreate] at hinit
  refine ⟨?_, ?_, mctsDone_initTarget_false A s target hc hr, ?_⟩
  · rw [hcreate]
    show some (computeChemDone _ target) = some true
    congr 1
    refine computeChemDone_of_empty_templates (getChem_addNode_self _ _ _) ?_
    exact ht
  · rw [hinit]
    show some (A.predictTemplates target s.templateMaxCount s.templateMaxCumProb, false)
      = some ([], false)
    rw [ht]
  · have hsucc : successors (initTarget A s target).tree target = [] := by
      unfold successors
      rw [initTarget_edges, he]
      rfl
    unfold ucb
    rw [hinit]
    have helig : eligibleRxns (initTarget A s target) target [target] = [] := by
      unfold eligibleRxns
      rw [hsucc]
      rfl
    rw [helig]
    simp [ht, sortDesc]

/-- Witness for the amended C4 theorem at the concrete adapter. -/
theorem initTarget_empty_templates_witness :
    adapterC4.predictTemplates "E" mkMCTS.templateMaxCount mkMCTS.templateMaxCumProb = [] ∧
    mkMCTS.maxChemicals = none ∧ mkMCTS.maxReactions = none ∧
    mkMCTS.tree.edges = [] ∧
    ((getChem (create_chemical_node adapterC4 { mkMCTS with target := "E" } "E").tree "E").map
      (fun d => d.done) = some true ∧
    (getChem (initTarget adapterC4 mkMCTS "E").tree "E").map
      (fun d => (d.templates, d.done)) = some ([], false) ∧
    mctsDone (initTarget adapterC4 mkMCTS "E") = false ∧
    ucb (initTarget adapterC4 mkMCTS "E") rsqrt "E" ["E"] 1 = ([], [])) :=
  ⟨rfl, rfl, rfl, rfl,
    initTarget_empty_templates adapterC4 mkMCTS "E" 1 rsqrt rfl rfl rfl rfl⟩

/-! ## Claim C9 -/

/-- One template whose application yields two accepted outcomes. -/
def adapterC9 : Adapter :=
  { predictTemplates := fun z _ _ => if z = "X" then [(1, 1)] else [],
    lookupPrice := fun z => if z = "X" then none else some 1,
    applyTemplate := fun z t => if z = "X" ∧ t = 1 then [["A"], ["B"]] else [],
    fastFilter := fun _ _ => 1 }

/-- Engine configured with `max_branching = 1` and an integral fast
filter threshold (rational constants in concrete runs are kept integral
so the kernel can reduce them). -/
def stateC9 : MCTS := { mkMCTS with maxBranching := 1, fastFilterThreshold := 0 }

/-- C9: the `max_branching` cap is only checked during selection
(`out_degree(leaf) < max_branching` gates the template options), while
`_process_precursors` adds an edge per accepted outcome without
re-checking the cap: with `max_branching = 1` the root has out-degree 0
before the rollout (so the cap admits a template option), and a single
rollout applying one template with two accepted outcomes leaves the
root with out-degree 2 > 1. -/
theorem single_rollout_exceeds_max_branching :
    stateC9.maxBranching = 1 ∧
    outDegree (initTarget adapterC9 stateC9 "X").tree "X" = 0 ∧
    (rollout adapterC9 rsqrt 5 (initTarget adapterC9 stateC9 "X")).map
      (fun st => outDegree st.tree "X") = some 2 :=
  ⟨rfl, by decide, by decide⟩

/-! ## Claim C2 -/

theorem reach_edges_nil {t : Digraph} {root x : String} (he : t.edges = [])
    (h : Reach t root x) : x = root := by
  induction h with
  | refl => rfl
  | step hu hmem ih => rw [he] at hmem; exact absurd hmem (List.not_mem_nil _)

/-- The only template for X yields the single outcome `[A, X]`, i.e. the
target itself reappears among the reactants. -/
def adapterC2 : Adapter :=
  { predictTemplates := fun z _ _ => if z = "X" then [(1, 1)] else [],
    lookupPrice := fun z => if z = "A" then some 1 else none,
    applyTemplate := fun z t => if z = "X" ∧ t = 1 then [["A", "X"]] else [],
    fastFilter := fun _ _ => 1 }

/-- Default engine with an integral fast filter threshold (so concrete
runs reduce inside the kernel). -/
def stateC2 : MCTS := { mkMCTS with fastFilterThreshold := 0 }

/-- The engine state after one rollout on X under `adapterC2`. -/
def runC2 : Option MCTS := rollout adapterC2 rsqrt 5 (initTarget adapterC2 stateC2 "X")

/-- The state reached by `runC2` (the rollout does succeed). -/
def stateC2run : MCTS := runC2.getD mkMCTS

/-- C2 counterexample: one rollout on target X selects the only template,
whose outcome is `[A, X]`; the chemical node A is created first, then the
cycle on X is detected and the outcome discarded.  The resulting graph
contains node A with no edges at all, so A is not reachable from the
root X — the outcome is not discarded "all-or-nothing". -/
theorem rollout_leaves_unreachable_node :
    runC2 = some stateC2run ∧
    (lookupNode stateC2run.tree.nodes "A").isSome = true ∧
    stateC2run.tree.edges = [] ∧
    ¬ Reach stateC2run.tree "X" "A" := by
  refine ⟨by decide, by decide, by decide, fun h => ?_⟩
  have hax := reach_edges_nil (by decide) h
  exact absurd hax (by decide)

theorem processReactants_frame (A : Adapter) (path : List String) :
    ∀ (R : List String) (s : MCTS),
      (processReactants A s path R).1.reactions = s.reactions ∧
      (processReactants A s path R).1.tree.edges = s.tree.edges
  | [], s => ⟨rfl, rfl⟩
  | a :: rest, s => by
    unfold processReactants
    by_cases hp : a ∈ path
    · rw [if_pos hp]
      exact ⟨rfl, rfl⟩
    · rw [if_neg hp]
      by_cases hc : a ∈ s.chemicals
      · simp only [if_pos hc]
        exact processReactants_frame A path rest s
      · simp only [if_neg hc]
        have h1 := processReactants_frame A path rest (create_chemical_node A s a)
        rw [h1.1, h1.2, create_chemical_node_reactions, create_chemical_node_edges]
        exact ⟨rfl, rfl⟩

theorem processReactants_cycled (A : Adapter) (path : List String) :
    ∀ (R : List String) (s : MCTS), (∃ a ∈ R, a ∈ path) →
      (processReactants A s path R).2 = true
  | [], _, h => by simp at h
  | a :: rest, s, h => by
    unfold processReactants
    by_cases hp : a ∈ path
    · rw [if_pos hp]
    · rw [if_neg hp]
      have hrest : ∃ b ∈ rest, b ∈ path := by
        obtain ⟨b, hb, hbp⟩ := h
        rcases List.mem_cons.mp hb with rfl | hb'
        · exact absurd hbp hp
        · exact ⟨b, hb', hbp⟩
      simp only []
      exact processReactants_cycled A path rest _ hrest

/-- C2 amended: when a cycle is detected on any reactant of an outcome,
the outcome's reaction node and its edges are indeed discarded (the
reactions registry and the edge list are unchanged) — but chemical
nodes already created for reactants processed before the cycle remain
in the graph, and (per the counterexample) need not be reachable from
the root. -/
theorem process_precursors_cycle_discards_outcome (A : Adapter) (s : MCTS)
    (target : String) (tpl : Nat) (R path : List String)
    (hcy : ∃ a ∈ R, a ∈ path) :
    (process_precursors A s target tpl [R] path).reactions = s.reactions ∧
    (process_precursors A s target tpl [R] path).tree.edges = s.tree.edges := by
  unfold process_precursors
  rw [List.foldl_cons, List.foldl_nil]
  by_cases hsc : A.fastFilter (String.intercalate "." R) target < s.fastFilterThreshold
  · rw [if_pos hsc]
    exact ⟨rfl, rfl⟩
  · rw [if_neg hsc]
    have hcyc := processReactants_cycled A path R s hcy
    simp only [hcyc, if_true]
    exact processReactants_frame A path R s

/-- Witness for the amended C2 theorem at the concrete cycle instance. -/
theorem process_precursors_cycle_discards_outcome_witness :
    (∃ a ∈ (["A", "X"] : List String), a ∈ (["X"] : List String)) ∧
    ((process_precursors adapterC2 stateC2 "X" 1 [["A", "X"]] ["X"]).reactions
        = stateC2.reactions ∧
      (process_precursors adapterC2 stateC2 "X" 1 [["A", "X"]] ["X"]).tree.edges
        = stateC2.tree.edges) :=
  ⟨by decide,
    process_precursors_cycle_discards_outcome adapterC2 stateC2 "X" 1 ["A", "X"] ["X"]
      (by decide)⟩

/-! ## Claim C10 -/

theorem processReactants_skip (A : Adapter) (path : List String) :
    ∀ (R : List String) (s : MCTS), (∀ a ∈ R, a ∉ path ∧ a ∈ s.chemicals) →
      processReactants A s path R = (s, false)
  | [], _, _ => rfl
  | a :: rest, s, h => by
    obtain ⟨hnp, hc⟩ := h a (List.mem_cons_self a rest)
    unfold processReactants
    rw [if_neg hnp]
    simp only [if_pos hc]
    exact processReactants_skip A path rest s
      (fun b hb => h b (List.mem_cons_of_mem a hb))

theorem nodes_foldl_addEdge (r : String) :
    ∀ (l : List String) (s : MCTS),
      ((l.foldl (fun (t : MCTS) a => { t with tree := addEdge t.tree r a }) s)).tree.nodes
        = s.tree.nodes
  | [], _ => rfl
  | a :: rest, s => by
    rw [List.foldl_cons, nodes_foldl_addEdge r rest _]
    exact nodes_addEdge s.tree r a

theorem getRxn_eq_of_nodes {t1 t2 : Digraph} (h : t1.nodes = t2.nodes) (k : String) :
    getRxn t1 k = getRxn t2 k := by
  unfold getRxn
  rw [h]

/-- C10: when `_process_precursors` generates a reaction id that already
exists in the graph, only the reaction's `templates` list (the template
is appended) and `template_score` (the max with the new score) are
modified; `fast_filter_score`, `visit_count`, `reward_avg` and
`reward_tot` keep their previous values — in particular the freshly
computed fast-filter score of the merged outcome is discarded. -/
theorem process_precursors_merge_frame (A : Adapter) (s : MCTS) (target : String)
    (tpl : Nat) (R path : List String) (rd : RxnData) (dt : ChemData)
    (hsc : ¬ A.fastFilter (String.intercalate "." R) target < s.fastFilterThreshold)
    (hR : ∀ a ∈ R, a ∉ path ∧ a ∈ s.chemicals)
    (hmem : (String.intercalate "." R ++ ">>" ++ target) ∈ s.reactions)
    (hrd : getRxn s.tree (String.intercalate "." R ++ ">>" ++ target) = some rd)
    (hdt : getChem s.tree target = some dt) :
    getRxn (process_precursors A s target tpl [R] path).tree
        (String.intercalate "." R ++ ">>" ++ target) =
      some { rd with templates := rd.templates ++ [tpl],
                     templateScore := max rd.templateScore (templateProb dt tpl) } := by
  unfold process_precursors
  rw [List.foldl_cons, List.foldl_nil, if_neg hsc,
      processReactants_skip A path R s hR]
  simp only [hdt, hmem, if_true, if_pos hmem, if_neg Bool.false_ne_true]
  rw [getRxn_eq_of_nodes (nodes_foldl_addEdge _ R _) _,
      getRxn_eq_of_nodes (nodes_addEdge _ _ _) _,
      getRxn_updRxn_self, hrd]
  rfl

/-- The reaction data of `A>>X` in `stateC10`. -/
def rdC10 : RxnData :=
  { fastFilterScore := 1, rewardAvg := 7, rewardTot := 21,
    templateScore := 1, templates := [1], visitCount := 3 }

/-- The chemical data of `X` in `stateC10`. -/
def dtC10 : ChemData :=
  { explored := [1], minDepth := some 0, purchasePrice := none,
    rewardAvg := 0, rewardTot := 0, templates := [(1, 1), (2, 1)],
    terminal := false, done := false, visitCount := 3 }

/-- The chemical data of `A` in `stateC10`. -/
def daC10 : ChemData :=
  { explored := [], minDepth := some 1, purchasePrice := some 1,
    rewardAvg := 0, rewardTot := 0, templates := [], terminal := true,
    done := true, visitCount := 2 }

/-- A state with an existing reaction `A>>X` carrying non-trivial scores
and counters, for the C10 witness. -/
def stateC10 : MCTS :=
  { mkMCTS with
    target := "X",
    chemicals := ["X", "A"],
    reactions := ["A>>X"],
    fastFilterThreshold := 0,
    tree := ⟨[("X", .chem dtC10), ("A", .chem daC10), ("A>>X", .rxn rdC10)],
             [("X", "A>>X"), ("A>>X", "A")]⟩ }

/-- Witness for the C10 theorem: re-deriving `A>>X` via template 2. -/
theorem process_precursors_merge_frame_witness :
    (¬ adapterC2.fastFilter (String.intercalate "." ["A"]) "X"
        < stateC10.fastFilterThreshold) ∧
    (∀ a ∈ (["A"] : List String), a ∉ (["X"] : List String) ∧ a ∈ stateC10.chemicals) ∧
    ((String.intercalate "." ["A"] ++ ">>" ++ "X") ∈ stateC10.reactions) ∧
    getRxn stateC10.tree (String.intercalate "." ["A"] ++ ">>" ++ "X") = some rdC10 ∧
    getChem stateC10.tree "X" = some dtC10 ∧
    getRxn (process_precursors adapterC2 stateC10 "X" 2 [["A"]] ["X"]).tree
        (String.intercalate "." ["A"] ++ ">>" ++ "X") =
      some { rdC10 with templates := rdC10.templates ++ [2],
                        templateScore := max rdC10.templateScore (templateProb dtC10 2) } :=
  ⟨by decide, by decide, by decide, by decide, by decide,
    process_precursors_merge_frame adapterC2 stateC10 "X" 2 ["A"] ["X"] rdC10 dtC10
      (by decide) (by decide) (by decide) (by decide) (by decide)⟩

/-! ## Claim C8 -/

theorem listAll_congr {l : List α} {f g : α → Bool} (h : ∀ x ∈ l, f x = g x) :
    l.all f = l.all g := by
  induction l with
  | nil => rfl
  | cons a t ih =>
    simp only [List.all_cons, h a (List.mem_cons_self a t),
      ih (fun x hx => h x (List.mem_cons_of_mem a hx))]

theorem computeChemDone_setChemDone (s : MCTS) (c : String) (v : Bool)
    (h : ∀ r ∈ successors s.tree c, c ∉ successors s.tree r) :
    computeChemDone (setChemDone s c v) c = computeChemDone s c := by
  unfold computeChemDone
  have hget : getChem (setChemDone s c v).tree c
      = (getChem s.tree c).map (fun d => { d with done := v }) :=
    getChem_updChem_self s.tree c _
  rw [hget]
  cases hc : getChem s.tree c with
  | none => rfl
  | some d =>
    have hout : outDegree (setChemDone s c v).tree c = outDegree s.tree c := rfl
    have hsucc : successors (setChemDone s c v).tree c = successors s.tree c := rfl
    have hmb : (setChemDone s c v).maxBranching = s.maxBranching := rfl
    have hmd : (setChemDone s c v).maxDepth = s.maxDepth := rfl
    have hall : (successors s.tree c).all (is_reaction_done (setChemDone s c v))
        = (successors s.tree c).all (is_reaction_done s) := by
      refine listAll_congr (fun r hr => ?_)
      unfold is_reaction_done
      have hor : outDegree (setChemDone s c v).tree r = outDegree s.tree r := rfl
      have hsr : successors (setChemDone s c v).tree r = successors s.tree r := rfl
      rw [hor, hsr]
      congr 1
      refine listAll_congr (fun x hx => ?_)
      have hxc : x ≠ c := fun hxeq => (h r hr) (hxeq ▸ hx)
      unfold chemDoneAttr
      have hgx : getChem (setChemDone s c v).tree x = getChem s.tree x :=
        getChem_updChem_ne s.tree c x _ hxc
      rw [hgx]
    simp only [Option.map_some', hout, hsucc, hmb, hmd, hall]

theorem map_if_map_if (k : String) (f g : NodeData → NodeData) :
    ∀ l : List (String × NodeData),
      (l.map (fun p => if p.1 = k then (p.1, f p.2) else p)).map
          (fun p => if p.1 = k then (p.1, g p.2) else p)
        = l.map (fun p => if p.1 = k then (p.1, g (f p.2)) else p)
  | [] => rfl
  | p :: l => by
    rw [List.map_cons, List.map_cons, List.map_cons, map_if_map_if k f g l]
    congr 1
    by_cases hp : p.1 = k
    · simp [hp]
    · simp [hp]

theorem updNode_updNode (t : Digraph) (k : String) (f g : NodeData → NodeData) :
    updNode (updNode t k f) k g = updNode t k (fun nd => g (f nd)) := by
  show ({ t with
      nodes := (t.nodes.map (fun p => if p.1 = k then (p.1, f p.2) else p)).map
        (fun p => if p.1 = k then (p.1, g p.2) else p) } : Digraph) = _
  rw [map_if_map_if]
  rfl

theorem updChem_done_idem (t : Digraph) (c : String) (v : Bool) :
    updChem (updChem t c (fun d => { d with done := v })) c
        (fun d => { d with done := v })
      = updChem t c (fun d => { d with done := v }) := by
  unfold updChem
  rw [updNode_updNode]
  congr 1
  funext nd
  cases nd <;> rfl

/-- C8: for a chemical node that is not a successor of one of its own
successor reactions (true of every graph the engine builds), running
`is_chemical_done(update=True)` twice in a row without intervening graph
changes returns the same done value and leaves the state exactly as
after the first run. -/
theorem update_done_idempotent (s : MCTS) (c : String)
    (h : ∀ r ∈ successors s.tree c, c ∉ successors s.tree r) :
    is_chemical_done_update (is_chemical_done_update s c).2 c =
      ((is_chemical_done_update s c).1, (is_chemical_done_update s c).2) := by
  have hv : computeChemDone (setChemDone s c (computeChemDone s c)) c
      = computeChemDone s c :=
    computeChemDone_setChemDone s c _ h
  unfold is_chemical_done_update
  simp only []
  rw [hv]
  refine Prod.ext rfl ?_
  show setChemDone (setChemDone s c (computeChemDone s c)) c (computeChemDone s c)
      = setChemDone s c (computeChemDone s c)
  unfold setChemDone
  congr 1
  exact updChem_done_idem s.tree c _

/-- The chemical data of `W` in `stateC8`. -/
def dwC8 : ChemData :=
  { explored := [], minDepth := none, purchasePrice := none,
    rewardAvg := 0, rewardTot := 0, templates := [(1, 1)], terminal := false,
    done := false, visitCount := 0 }

/-- A one-node state for the C8 witness. -/
def stateC8 : MCTS :=
  { mkMCTS with
    chemicals := ["W"],
    tree := ⟨[("W", .chem dwC8)], []⟩ }

/-- Witness for the C8 theorem at a concrete one-node state. -/
theorem update_done_idempotent_witness :
    (∀ r ∈ successors stateC8.tree "W", "W" ∉ successors stateC8.tree r) ∧
    is_chemical_done_update (is_chemical_done_update stateC8 "W").2 "W" =
      ((is_chemical_done_update stateC8 "W").1, (is_chemical_done_update stateC8 "W").2) :=
  ⟨by decide, update_done_idempotent stateC8 "W" (by decide)⟩

/-! ## Claim C5 -/

/-- Modelled from the spec: the claim's template-option score, with
`m = max(0, max over reaction children of reward_avg)` taken over **all**
reaction children of the node, as the claim reads. -/
def specTemplateScore (s : MCTS) (sqrtFn : Nat → ℚ) (node : String) (w : ℚ)
    (t : Nat) : ℚ :=
  match getChem s.tree node with
  | none => 0
  | some d =>
    -(((successors s.tree node).map (fun r => (getRxnD s.tree r).rewardAvg)).foldl max 0
        + 1/10)
      + w * (templateProb d t * (1 + sqrtFn d.visitCount))

theorem specTemplateScore_eq (s : MCTS) (sqrtFn : Nat → ℚ) (node : String)
    (w : ℚ) (t : Nat) (d : ChemData) (hd : getChem s.tree node = some d) :
    specTemplateScore s sqrtFn node w t =
      -((((successors s.tree node).map
            (fun r => (getRxnD s.tree r).rewardAvg)).foldl max 0) + 1/10)
        + w * (templateProb d t * (1 + sqrtFn d.visitCount)) := by
  unfold specTemplateScore
  rw [hd]

theorem ucb_templateOptions_eq (s : MCTS) (sqrtFn : Nat → ℚ) (node : String)
    (path : List String) (w : ℚ) (d : ChemData) (hd : getChem s.tree node = some d) :
    (ucb s sqrtFn node path w).2 =
      sortDesc Prod.fst ((d.templates.filter (fun tp => !d.explored.contains tp.1)).map
        (fun tp => (-(ucbMaxReward s node path + 1/10)
          + w * (tp.2 * (1 + sqrtFn d.visitCount)), tp.1))) := by
  unfold ucb
  rw [hd]

theorem mem_insertDesc (key : α → ℚ) (y x : α) :
    ∀ acc, x ∈ insertDesc key acc y ↔ x ∈ acc ∨ x = y
  | [] => by simp [insertDesc]
  | z :: zs => by
    unfold insertDesc
    by_cases hlt : key z < key y
    · rw [if_pos hlt]
      simp [List.mem_cons]
      tauto
    · rw [if_neg hlt]
      simp only [List.mem_cons, mem_insertDesc key y x zs]
      tauto

theorem mem_foldl_insertDesc (key : α → ℚ) (x : α) :
    ∀ (l acc : List α), x ∈ l.foldl (insertDesc key) acc ↔ x ∈ acc ∨ x ∈ l
  | [], acc => by simp
  | b :: l, acc => by
    rw [List.foldl_cons, mem_foldl_insertDesc key x l _, mem_insertDesc]
    simp only [List.mem_cons]
    tauto

theorem mem_sortDesc (key : α → ℚ) (x : α) (l : List α) :
    x ∈ sortDesc key l ↔ x ∈ l := by
  unfold sortDesc
  rw [mem_foldl_insertDesc]
  simp

/-- The chemical `c` of the C5 scenario: one unexplored template (index
5, probability 1), visit count 1. -/
def dC5 : ChemData :=
  { explored := [], minDepth := some 0, purchasePrice := none,
    rewardAvg := 0, rewardTot := 0, templates := [(5, 1)],
    terminal := false, done := false, visitCount := 1 }

/-- The reaction child `B>>c` of the C5 scenario, with `reward_avg = 5`;
it is reaction-done because its only child B is done. -/
def dxC5 : RxnData :=
  { fastFilterScore := 1, rewardAvg := 5, rewardTot := 5,
    templateScore := 1, templates := [5], visitCount := 1 }

/-- The done precursor B of the C5 scenario. -/
def dbC5 : ChemData :=
  { explored := [], minDepth := some 1, purchasePrice := some 1,
    rewardAvg := 0, rewardTot := 0, templates := [], terminal := true,
    done := true, visitCount := 1 }

/-- C5 scenario state: `c → B>>c → B`, with `B>>c` reaction-done. -/
def stateC5 : MCTS :=
  { mkMCTS with
    target := "c", chemicals := ["c", "B"], reactions := ["B>>c"],
    tree := ⟨[("c", .chem dC5), ("B>>c", .rxn dxC5), ("B", .chem dbC5)],
             [("c", "B>>c"), ("B>>c", "B")]⟩ }

/-- The template options `ucb` actually computes in the C5 scenario:
the done reaction child is skipped, so `m = 0` and the single template
scores `-(0 + 1/10) + 1·(1·(1 + √1)) = 19/10`. -/
theorem ucbC5_eval : (ucb stateC5 rsqrt "c" ["c"] 1).2 = [(19/10, 5)] := by
  rw [ucb_templateOptions_eq stateC5 rsqrt "c" ["c"] 1 dC5 rfl]
  have hm : ucbMaxReward stateC5 "c" ["c"] = 0 := by decide
  have hs : rsqrt dC5.visitCount = 1 := by decide
  rw [hm, hs]
  show [((-(0 + 1/10) + 1 * (1 * (1 + 1)) : ℚ), (5 : Nat))] = [((19/10 : ℚ), (5 : Nat))]
  have harith : (-(0 + 1/10) + 1 * (1 * (1 + 1)) : ℚ) = 19/10 := by norm_num
  rw [harith]

/-- C5 counterexample: in the state `stateC5` the reaction child `B>>c`
has `reward_avg = 5` but is reaction-done, so the UCB loop skips it and
scores template 5 with `m = 0`, giving 19/10; the claim's formula,
whose `m` ranges over all reaction children, gives −(5+0.1)+2 = −31/10. -/
theorem ucb_template_score_ignores_skipped_children :
    is_reaction_done stateC5 "B>>c" = true ∧
    (getRxnD stateC5.tree "B>>c").rewardAvg = 5 ∧
    (ucb stateC5 rsqrt "c" ["c"] 1).2 = [(19/10, 5)] ∧
    specTemplateScore stateC5 rsqrt "c" 1 5 = -(31/10) ∧
    ((19 : ℚ)/10) ≠ -(31/10) := by
  refine ⟨by decide, by decide, ucbC5_eval, ?_, by norm_num⟩
  rw [specTemplateScore_eq stateC5 rsqrt "c" 1 5 dC5 rfl]
  have hmax : ((successors stateC5.tree "c").map
      (fun r => (getRxnD stateC5.tree r).rewardAvg)).foldl max 0 = 5 := by decide
  have hs : rsqrt dC5.visitCount = 1 := by decide
  have hp : templateProb dC5 5 = 1 := by decide
  rw [hmax, hs, hp]
  norm_num

/-- C5 amended: every unexplored template `t ∈ templates(c) ∖ explored(c)`
is scored `−(m + 0.1) + w · templates(c)[t] · (1 + √visit_count(c))`,
where `m` is the maximum of 0 and the `reward_avg` of the reaction
children **not skipped** by the UCB loop (children that are
reaction-done, or have a successor on the current path, are excluded
from `m`). -/
theorem ucb_template_option_score (s : MCTS) (sqrtFn : Nat → ℚ) (node : String)
    (path : List String) (w : ℚ) (d : ChemData) (hd : getChem s.tree node = some d)
    (sc : ℚ) (t : Nat) (hmem : (sc, t) ∈ (ucb s sqrtFn node path w).2) :
    ∃ p, (t, p) ∈ d.templates ∧ t ∉ d.explored ∧
      sc = -(ucbMaxReward s node path + 1/10) + w * (p * (1 + sqrtFn d.visitCount)) := by
  rw [ucb_templateOptions_eq s sqrtFn node path w d hd, mem_sortDesc] at hmem
  obtain ⟨tp, htp, heq⟩ := List.mem_map.mp hmem
  obtain ⟨htpl, hnex⟩ := List.mem_filter.mp htp
  obtain ⟨hsc, ht⟩ := Prod.mk.injEq .. ▸ heq
  refine ⟨tp.2, ?_, ?_, hsc.symm⟩
  · rw [← ht]
    exact htpl
  · rw [← ht]
    simp at hnex
    exact hnex

/-- Witness for the amended C5 theorem at the concrete scenario. -/
theorem ucb_template_option_score_witness :
    getChem stateC5.tree "c" = some dC5 ∧
    ((19/10, 5) ∈ (ucb stateC5 rsqrt "c" ["c"] 1).2) ∧
    ∃ p, (5, p) ∈ dC5.templates ∧ 5 ∉ dC5.explored ∧
      (19/10 : ℚ) = -(ucbMaxReward stateC5 "c" ["c"] + 1/10)
        + 1 * (p * (1 + rsqrt dC5.visitCount)) :=
  ⟨rfl,
    by rw [ucbC5_eval]; exact List.mem_singleton.mpr rfl,
    ucb_template_option_score stateC5 rsqrt "c" ["c"] 1 dC5 rfl (19/10) 5
      (by rw [ucbC5_eval]; exact List.mem_singleton.mpr rfl)⟩

/-! ## Claim C6 -/

theorem all_attach_eq (l : List α) (f : α → Bool) :
    l.attach.all (fun x => f x.1) = l.all f := by
  by_cases h : l.all f = true
  · rw [h]
    rw [List.all_eq_true] at h ⊢
    exact fun x _ => h x.1 x.2
  · have h2 : l.all f = false := Bool.eq_false_iff.mpr h
    rw [h2]
    refine Bool.eq_false_iff.mpr (fun hc => h ?_)
    rw [List.all_eq_true] at hc ⊢
    intro x hx
    exact hc ⟨x, hx⟩ (List.mem_attach _ _)

theorem altTree_children {b : Bool} {i : String} {dat : NodeData} {cs : List BTree}
    (h : altTree b (.node i dat cs) = true) :
    ∀ c ∈ cs, altTree (!b) c = true := by
  rw [altTree, Bool.and_eq_true] at h
  have h2 := h.2
  rw [List.all_eq_true] at h2
  intro c hc
  exact h2 ⟨c, hc⟩ (List.mem_attach _ _)

theorem altTree_chem {i : String} {dat : NodeData} {cs : List BTree}
    (h : altTree true (.node i dat cs) = true) :
    ∃ cd, dat = .chem cd := by
  rw [altTree, Bool.and_eq_true] at h
  have h1 := h.1
  cases dat with
  | chem cd => exact ⟨cd, rfl⟩
  | rxn rd => simp [kindMatches] at h1

theorem altTree_rxn {i : String} {dat : NodeData} {cs : List BTree}
    (h : altTree false (.node i dat cs) = true) :
    ∃ rd, dat = .rxn rd := by
  rw [altTree, Bool.and_eq_true] at h
  have h1 := h.1
  cases dat with
  | chem cd => simp [kindMatches] at h1
  | rxn rd => exact ⟨rd, rfl⟩

theorem chemDepth_node (i : String) (dat : NodeData) (cs : List BTree) :
    chemDepth (.node i dat cs) =
      (cs.map chemDepth).foldl max 0 + depthBump dat := by
  rw [chemDepth]
  have h : cs.attach.map (fun c => chemDepth c.1) = cs.map chemDepth := by
    rw [List.attach_map_coe]
  rw [h]

theorem foldl_max_le (b : Nat) : ∀ (l : List Nat) (acc : Nat),
    acc ≤ b → (∀ x ∈ l, x ≤ b) → l.foldl max acc ≤ b
  | [], acc, ha, _ => ha
  | x :: l, acc, ha, h => by
    rw [List.foldl_cons]
    exact foldl_max_le b l _ (max_le ha (h x (List.mem_cons_self x l)))
      (fun y hy => h y (List.mem_cons_of_mem _ hy))

theorem mem_listProd : ∀ (ls : List (List α)) (combo : List α),
    combo ∈ listProd ls → List.Forall₂ (fun x l => x ∈ l) combo ls
  | [], combo, h => by
    unfold listProd at h
    rw [List.mem_singleton] at h
    subst h
    exact List.Forall₂.nil
  | l :: ls, combo, h => by
    unfold listProd at h
    rw [List.mem_flatten] at h
    obtain ⟨L, hL, hcombo⟩ := h
    obtain ⟨x, hx, rfl⟩ := List.mem_map.mp hL
    obtain ⟨c2, hc2, rfl⟩ := List.mem_map.mp hcombo
    exact List.Forall₂.cons hx (mem_listProd ls c2 hc2)

theorem forall₂_mem_left {R : α → β → Prop} : ∀ {l1 : List α} {l2 : List β},
    List.Forall₂ R l1 l2 → ∀ x ∈ l1, ∃ y ∈ l2, R x y := by
  intro l1 l2 h
  induction h with
  | nil => intro x hx; cases hx
  | cons hr _ ih =>
    intro x hx
    rcases List.mem_cons.mp hx with rfl | hx'
    · exact ⟨_, List.mem_cons_self _ _, hr⟩
    · obtain ⟨y, hy, hry⟩ := ih x hx'
      exact ⟨y, List.mem_cons_of_mem _ hy, hry⟩

theorem paths_depth (maxD : Nat) : ∀ (n : Nat) (t : BTree), sizeOf t ≤ n →
    (∀ d p, altTree true t = true → p ∈ getChemPaths maxD t d →
      chemDepth p ≤ maxD - d) ∧
    (∀ d p, altTree false t = true → p ∈ getRxnPaths maxD t d →
      chemDepth p ≤ (maxD - d) + 1)
  | 0, .node i dat children, hn => by
    simp at hn
  | n + 1, .node i dat children, hn => by
    have hrec : ∀ c ∈ children, sizeOf c ≤ n := by
      intro c hc
      have h1 := List.sizeOf_lt_of_mem hc
      simp at hn
      omega
    constructor
    · intro d p halt hp
      obtain ⟨cd, rfl⟩ := altTree_chem halt
      rw [getChemPaths] at hp
      by_cases hcond : (children.isEmpty || decide (d ≥ maxD)) = true
      · rw [if_pos hcond] at hp
        rw [List.mem_singleton] at hp
        subst hp
        rw [chemDepth_node]
        simp [depthBump]
      · rw [if_neg hcond] at hp
        rw [List.mem_flatten] at hp
        obtain ⟨L, hL, hpL⟩ := hp
        obtain ⟨c, _, rfl⟩ := List.mem_map.mp hL
        obtain ⟨sub, hsub, rfl⟩ := List.mem_map.mp hpL
        rw [Bool.or_eq_true, not_or] at hcond
        have hd : d < maxD := by
          have h2 := hcond.2
          simp at h2
          omega
        have hsubd := (paths_depth maxD n c.1 (hrec c.1 c.2)).2 (d + 1) sub
          (altTree_children halt c.1 c.2) hsub
        rw [chemDepth_node]
        simp only [List.map_cons, List.map_nil, List.foldl_cons, List.foldl_nil,
          Nat.zero_max, depthBump]
        omega
    · intro d p halt hp
      obtain ⟨rd, rfl⟩ := altTree_rxn halt
      rw [getRxnPaths] at hp
      obtain ⟨combo, hcombo, rfl⟩ := List.mem_map.mp hp
      have hf := mem_listProd _ combo hcombo
      rw [chemDepth_node]
      simp only [depthBump]
      have hbound : ∀ x ∈ combo.map chemDepth, x ≤ maxD - d := by
        intro x hx
        obtain ⟨q, hq, rfl⟩ := List.mem_map.mp hx
        obtain ⟨L, hL, hqL⟩ := forall₂_mem_left hf q hq
        obtain ⟨c, _, rfl⟩ := List.mem_map.mp hL
        exact (paths_depth maxD n c.1 (hrec c.1 c.2)).1 d q
          (altTree_children halt c.1 c.2) hqL
      have hfold := foldl_max_le (maxD - d) (combo.map chemDepth) 0 (Nat.zero_le _) hbound
      omega

theorem rxnNonempty_children {i : String} {dat : NodeData} {cs : List BTree}
    (h : rxnNonempty (.node i dat cs) = true) :
    ∀ c ∈ cs, rxnNonempty c = true := by
  rw [rxnNonempty, Bool.and_eq_true] at h
  have h2 := h.2
  rw [List.all_eq_true] at h2
  intro c hc
  exact h2 ⟨c, hc⟩ (List.mem_attach _ _)

theorem rxnNonempty_rxn {i : String} {rd : RxnData} {cs : List BTree}
    (h : rxnNonempty (.node i (.rxn rd) cs) = true) : cs ≠ [] := by
  rw [rxnNonempty, Bool.and_eq_true] at h
  have h1 := h.1
  intro hcs
  subst hcs
  simp [rxnNodeOk] at h1

theorem leavesAreChem_node (i : String) (dat : NodeData) :
    ∀ (cs : List BTree), cs ≠ [] →
      leavesAreChem (.node i dat cs) = cs.all leavesAreChem
  | [], h => absurd rfl h
  | c :: cs, _ => by
    rw [leavesAreChem]
    exact all_attach_eq (c :: cs) leavesAreChem

theorem paths_leaves (maxD : Nat) : ∀ (n : Nat) (t : BTree), sizeOf t ≤ n →
    (∀ d p, altTree true t = true → rxnNonempty t = true →
      p ∈ getChemPaths maxD t d → leavesAreChem p = true) ∧
    (∀ d p, altTree false t = true → rxnNonempty t = true →
      p ∈ getRxnPaths maxD t d → leavesAreChem p = true)
  | 0, .node i dat children, hn => by
    simp at hn
  | n + 1, .node i dat children, hn => by
    have hrec : ∀ c ∈ children, sizeOf c ≤ n := by
      intro c hc
      have h1 := List.sizeOf_lt_of_mem hc
      simp at hn
      omega
    constructor
    · intro d p halt hne hp
      obtain ⟨cd, rfl⟩ := altTree_chem halt
      rw [getChemPaths] at hp
      by_cases hcond : (children.isEmpty || decide (d ≥ maxD)) = true
      · rw [if_pos hcond] at hp
        rw [List.mem_singleton] at hp
        subst hp
        rw [leavesAreChem]
        rfl
      · rw [if_neg hcond] at hp
        rw [List.mem_flatten] at hp
        obtain ⟨L, hL, hpL⟩ := hp
        obtain ⟨c, _, rfl⟩ := List.mem_map.mp hL
        obtain ⟨sub, hsub, rfl⟩ := List.mem_map.mp hpL
        have hsubl := (paths_leaves maxD n c.1 (hrec c.1 c.2)).2 (d + 1) sub
          (altTree_children halt c.1 c.2) (rxnNonempty_children hne c.1 c.2) hsub
        rw [leavesAreChem_node _ _ _ (by simp)]
        simp [hsubl]
    · intro d p halt hne hp
      obtain ⟨rd, rfl⟩ := altTree_rxn halt
      rw [getRxnPaths] at hp
      obtain ⟨combo, hcombo, rfl⟩ := List.mem_map.mp hp
      have hf := mem_listProd _ combo hcombo
      have hlen := List.Forall₂.length_eq hf
      have hchne : children ≠ [] := rxnNonempty_rxn hne
      have hcombo_ne : combo ≠ [] := by
        intro hc
        subst hc
        rw [List.length_nil, List.length_map, List.length_attach] at hlen
        exact hchne (List.length_eq_zero.mp hlen.symm)
      rw [leavesAreChem_node _ _ _ hcombo_ne, List.all_eq_true]
      intro q hq
      obtain ⟨L, hL, hqL⟩ := forall₂_mem_left hf q hq
      obtain ⟨c, _, rfl⟩ := List.mem_map.mp hL
      exact (paths_leaves maxD n c.1 (hrec c.1 c.2)).1 d q
        (altTree_children halt c.1 c.2) (rxnNonempty_children hne c.1 c.2) hqL

/-- C6: for every path kept by `get_buyable_paths` (paths enumerated by
`get_paths` from a bipartite branching whose reaction nodes all have at
least one child, then filtered by `_validate_path`), every leaf of the
path is a chemical node with `terminal = true`, and the path's chemical
depth is at most `max_depth`. -/
theorem get_buyable_paths_leaf_terminal_depth (maxD : Nat) (t : BTree) (p : BTree)
    (halt : altTree true t = true) (hne : rxnNonempty t = true)
    (hp : p ∈ getBuyablePathsList maxD t) :
    leavesAreChem p = true ∧ validatePath p = true ∧ chemDepth p ≤ maxD := by
  unfold getBuyablePathsList at hp
  obtain ⟨hp1, hp2⟩ := List.mem_filter.mp hp
  refine ⟨(paths_leaves maxD (sizeOf t) t le_rfl).1 0 p halt hne hp1, hp2, ?_⟩
  have h := (paths_depth maxD (sizeOf t) t le_rfl).1 0 p halt hp1
  simpa using h

/-- A terminal one-chemical branching for the C6 witness. -/
def cdC6 : ChemData :=
  { explored := [], minDepth := some 0, purchasePrice := some 1,
    rewardAvg := 0, rewardTot := 0, templates := [], terminal := true,
    done := true, visitCount := 1 }

/-- The branching tree of the C6 witness: a single buyable chemical. -/
def btC6 : BTree := .node "T" (.chem cdC6) []

/-- Witness for the C6 theorem at the one-chemical branching. -/
theorem get_buyable_paths_leaf_terminal_depth_witness :
    altTree true btC6 = true ∧ rxnNonempty btC6 = true ∧
    btC6 ∈ getBuyablePathsList 3 btC6 ∧
    (leavesAreChem btC6 = true ∧ validatePath btC6 = true ∧ chemDepth btC6 ≤ 3) :=
  ⟨by simp [altTree, btC6, kindMatches],
   by simp [rxnNonempty, btC6, rxnNodeOk],
   by unfold getBuyablePathsList btC6
      rw [getChemPaths]
      simp [validatePath, terminalRead, cdC6],
   get_buyable_paths_leaf_terminal_depth 3 btC6 btC6
     (by simp [altTree, btC6, kindMatches])
     (by simp [rxnNonempty, btC6, rxnNodeOk])
     (by unfold getBuyablePathsList btC6
         rw [getChemPaths]
         simp [validatePath, terminalRead, cdC6])⟩

end Askcos
